import Mathlib

/- Verification of the GPT keyword categorizer (src/keyword_app_own_api.py).

   The Python source is shallowly embedded below.  Pure string manipulation
   (template rendering, keyword preprocessing) is modelled over lists of
   characters; the network is modelled as an oracle mapping each outbound
   request to an outcome (a raised exception, or an HTTP response whose body
   parses to a JSON value or fails to parse).  Batched concurrent dispatch
   with asyncio.gather is modelled by its sequential denotation: gather
   returns results in submission order and each task writes only its own
   result pair, so the per-chunk fan-out/fan-in is observationally the list
   map over the chunk. -/

namespace KeywordApp

/-- A JSON value, as produced by response.json() in the dispatcher.  Object
fields keep their textual order; a lookup resolves duplicate keys to the last
one, as in a Python dict built from JSON. -/
inductive Json where
  | null
  | bool (b : Bool)
  | num (q : Rat)
  | str (s : String)
  | arr (elems : List Json)
  | obj (fields : List (String × Json))

/-- Python subscripting j[key] on a parsed JSON value: a KeyError on a dict
without the key (whose textual description Python renders as the quoted key),
a TypeError on non-dict values.  The description strings abstract the exact
Python exception texts. -/
def getKey : Json → String → Except String Json
  | .obj fields, key =>
    match (fields.reverse).find? (fun f => f.1 == key) with
    | some f => .ok f.2
    | none => .error ("'" ++ key ++ "'")
  | _, _ => .error "response value is not subscriptable by key"

/-- Python subscripting j[i] on a parsed JSON value: IndexError past the end
of a list, TypeError on non-list values. -/
def getIdx : Json → Nat → Except String Json
  | .arr elems, i =>
    match elems.get? i with
    | some v => .ok v
    | none => .error "list index out of range"
  | _, _ => .error "response value is not subscriptable by index"

/-- Lines 74-76 of the source: the extraction
response_json['choices'][0]['message']['content'], with each failing
subscript raising (modelled as Except.error carrying the description). -/
def extractContent (j : Json) : Except String Json := do
  let choices ← getKey j "choices"
  let first ← getIdx choices 0
  let message ← getKey first "message"
  getKey message "content"

/-- One entry of the "messages" array of the request body. -/
structure ChatMessage where
  role : String
  content : String
deriving DecidableEq

/-- The request body built in lines 50-64 of the source. -/
structure Payload where
  model : String
  messages : List ChatMessage
  temperature : Rat
deriving DecidableEq

/-- One outbound HTTP POST: url, headers and JSON body. -/
structure Request where
  url : String
  headers : List (String × String)
  payload : Payload
deriving DecidableEq

/-- The placeholder marker of the prompt template (written with escaped
braces: it is the 14-character string two-open-braces cell_value
two-close-braces). -/
def markerS : String := "\x7b\x7bcell_value\x7d\x7d"

/-- The marker as a character list. -/
def markerL : List Char := markerS.data

/-- Fuel-indexed scan of Python str.replace(marker, repl): at each position,
if the marker starts there, emit repl and skip the marker, otherwise keep the
character and move on.  The fuel only bounds the number of steps so that the
recursion is structural (hence kernel-computable); it never runs out when
started at the length of the list. -/
def replGo (repl : List Char) : Nat → List Char → List Char
  | _, [] => []
  | 0, l => l
  | fuel + 1, c :: cs =>
    if markerL.isPrefixOf (c :: cs) then
      repl ++ replGo repl fuel (cs.drop (markerL.length - 1))
    else
      c :: replGo repl fuel cs

/-- Python str.replace(marker, repl) on character lists: one left-to-right
pass replacing every non-overlapping occurrence of the marker. -/
def replaceAllMarker (repl l : List Char) : List Char :=
  replGo repl l.length l

/-- Lines 48-49 of the source:
prompt = prompt_template.replace(marker, text). -/
def renderPrompt (prompt_template text : String) : String :=
  ⟨replaceAllMarker text.data prompt_template.data⟩

/-- Number of positions of l at which pat occurs (for the nonempty patterns
used here this counts every occurrence of pat as a substring of l). -/
def countOcc (pat : List Char) : List Char → Nat
  | [] => 0
  | c :: cs => (if pat.isPrefixOf (c :: cs) then 1 else 0) + countOcc pat cs

/-- Interleave a separator between the given parts and concatenate. -/
def joinSep (sep : List Char) : List (List Char) → List Char
  | [] => []
  | [p] => p
  | p :: ps => p ++ sep ++ joinSep sep ps

/-- Line 56 of the source: the fixed system instruction. -/
def systemInstruction : String :=
  "You are an AI assistant trained to categorize keywords"

/-- Line 68 of the source: the fixed chat-completions endpoint. -/
def apiUrl : String := "https://api.openai.com/v1/chat/completions"

/-- Lines 43-46 of the source: the request headers. -/
def mkHeaders (api_key : String) : List (String × String) :=
  [("Content-Type", "application/json"),
   ("Authorization", "Bearer " ++ api_key)]

/-- Lines 50-64 of the source: the request body, with the rendered prompt as
the user message.  The JSON literal 0.7 is denoted by the rational 7/10. -/
def mkPayload (prompt : String) : Payload :=
  { model := "gpt-4o",
    messages := [{ role := "system", content := systemInstruction },
                 { role := "user", content := prompt }],
    temperature := 7 / 10 }

/-- The complete outbound request issued by process_text for one keyword. -/
def mkRequest (prompt_template api_key text : String) : Request :=
  { url := apiUrl,
    headers := mkHeaders api_key,
    payload := mkPayload (renderPrompt prompt_template text) }

/-- Result of awaiting response.json(): either the body failed to parse
(raising, with the given description) or it parsed to a JSON value. -/
inductive BodyParse where
  | malformed (desc : String)
  | parsed (j : Json)

/-- What the network does for one request: either the post itself raises
(connection error and the like), or a response arrives with an HTTP status,
the textual description that raise_for_status would use for that status, and
a body. -/
inductive NetOutcome where
  | raised (desc : String)
  | got (status : Nat) (statusDesc : String) (body : BodyParse)

/-- The body of the try/except of process_text (lines 66-78), given the
outcome of the post: raise_for_status raises for any status of 400 or above;
any raised exception e is caught and stringified as "Error: " ++ str(e);
otherwise the extracted content is returned. -/
def handleOutcome : NetOutcome → Json
  | .raised desc => .str ("Error: " ++ desc)
  | .got status statusDesc body =>
    if 400 ≤ status then .str ("Error: " ++ statusDesc)
    else
      match body with
      | .malformed desc => .str ("Error: " ++ desc)
      | .parsed j =>
        match extractContent j with
        | .ok content => content
        | .error desc => .str ("Error: " ++ desc)

/-- Lines 37-78 of the source: process_text(session, text, prompt_template,
api_key).  The shared session is abstracted into the network oracle net; both
return sites pair the original keyword text with the outcome. -/
def process_text (net : Request → NetOutcome)
    (text prompt_template api_key : String) : String × Json :=
  (text, handleOutcome (net (mkRequest prompt_template api_key text)))

/-- Fuel-indexed batching loop, mirroring
for i in range(0, len(keywords), batch_size): keywords[i:i+batch_size].
Structural in the fuel so that it is kernel-computable; the fuel never runs
out when started at the length of the list (each step consumes at least one
element once batch_size is at least 1; Python raises ValueError on step 0 and
the UI control enforces a minimum of 1). -/
def chunksGo {α : Type} (batch_size : Nat) : Nat → List α → List (List α)
  | _, [] => []
  | 0, _ => []
  | fuel + 1, x :: xs =>
    (x :: xs).take batch_size :: chunksGo batch_size fuel (xs.drop (batch_size - 1))

/-- Lines 94-96 of the source: the consecutive slices
keywords[i:i+batch_size] for i = 0, batch_size, 2*batch_size, .... -/
def chunks {α : Type} (batch_size : Nat) (l : List α) : List (List α) :=
  chunksGo batch_size l.length l

/-- One iteration of the batching loop (lines 96-103): dispatch every keyword
of the chunk, gather the results in submission order, and extend the
accumulated results.  The second component models the trace of outbound
requests (one per process_text call). -/
def gptStep (net : Request → NetOutcome) (prompt_template api_key : String)
    (acc : List (String × Json) × List Request) (batch : List String) :
    List (String × Json) × List Request :=
  (acc.1 ++ batch.map (fun text => process_text net text prompt_template api_key),
   acc.2 ++ batch.map (fun text => mkRequest prompt_template api_key text))

/-- Lines 81-104 of the source: run_gpt(keywords, prompt_template,
batch_size, api_key), returning the accumulated result pairs together with
the trace of outbound requests. -/
def run_gpt (net : Request → NetOutcome) (keywords : List String)
    (prompt_template : String) (batch_size : Nat) (api_key : String) :
    List (String × Json) × List Request :=
  (chunks batch_size keywords).foldl (gptStep net prompt_template api_key) ([], [])

/-- The state of run_gpt after its first n loop iterations. -/
def run_gpt_after (net : Request → NetOutcome) (keywords : List String)
    (prompt_template : String) (batch_size : Nat) (api_key : String) (n : Nat) :
    List (String × Json) × List Request :=
  ((chunks batch_size keywords).take n).foldl (gptStep net prompt_template api_key) ([], [])

/-- Characters at which Python str.splitlines breaks a line. -/
def isLineBreak (c : Char) : Bool :=
  c = '\n' || c = '\r' || c = '\x0b' || c = '\x0c' ||
  c = '\x1c' || c = '\x1d' || c = '\x1e' ||
  c = '\x85' || c = ' ' || c = ' '

/-- First pass of the splitlines model: a carriage return immediately
followed by a newline counts as a single break, so normalize it to a lone
newline (both are line breaks, so this conflates nothing else). -/
def normalizeCrLf : List Char → List Char
  | [] => []
  | [c] => [c]
  | c :: d :: rest =>
    if c == '\r' && d == '\n' then '\n' :: normalizeCrLf rest
    else c :: normalizeCrLf (d :: rest)

/-- Second pass of the splitlines model: break at every line-break character;
a trailing break does not produce a final empty line. -/
def splitBreaks : List Char → List (List Char)
  | [] => []
  | c :: rest =>
    if isLineBreak c then [] :: splitBreaks rest
    else
      match splitBreaks rest with
      | [] => [[c]]
      | l :: ls => (c :: l) :: ls

/-- Python str.splitlines on character lists. -/
def splitlinesList (l : List Char) : List (List Char) :=
  splitBreaks (normalizeCrLf l)

/-- Python str.splitlines. -/
def splitlines (s : String) : List String :=
  (splitlinesList s.data).map (fun l => ⟨l⟩)

/-- Characters stripped by Python str.strip() with no argument (the
characters for which Python str.isspace holds). -/
def isPySpace (c : Char) : Bool :=
  c = ' ' || c = '\t' || c = '\n' || c = '\r' || c = '\x0b' || c = '\x0c' ||
  c = '\x1c' || c = '\x1d' || c = '\x1e' || c = '\x1f' ||
  c = '\x85' || c = '\xa0' || c = ' ' ||
  (' ' ≤ c && c ≤ ' ') ||
  c = ' ' || c = ' ' || c = ' ' || c = ' ' || c = '　'

/-- Python str.strip() on character lists. -/
def pyStripList (l : List Char) : List Char :=
  ((l.dropWhile isPySpace).reverse.dropWhile isPySpace).reverse

/-- Python str.strip(). -/
def pyStrip (s : String) : String :=
  ⟨pyStripList s.data⟩

/-- Lines 139-141 of the source: the list comprehension
[line.strip() for line in keywords_input.splitlines() if line.strip()]. -/
def parseKeywords (keywords_input : String) : List String :=
  ((splitlines keywords_input).filter (fun line => pyStrip line != "")).map pyStrip

/-- Outcome of one click of the Run button. -/
inductive RunOutcome where
  | configError (msg : String)
  | completed (results : List (String × Json))

/-- Lines 131-152 of the source: the Run branch of main().  The api key is
checked first (Python truthiness of a string is non-emptiness), then the
preprocessed keyword list; only then is run_gpt invoked.  The second
component is the trace of outbound requests of the whole click. -/
def mainRun (net : Request → NetOutcome)
    (api_key keywords_input prompt_template : String) (batch_size : Nat) :
    RunOutcome × List Request :=
  if api_key = "" then
    (.configError "Please enter your OpenAI API Key.", [])
  else
    let keywords := parseKeywords keywords_input
    if keywords = [] then
      (.configError "Please enter at least one keyword.", [])
    else
      let r := run_gpt net keywords prompt_template batch_size api_key
      (.completed r.1, r.2)

/-- The failure taxonomy of the dispatcher, relating a network outcome to the
textual description of the exception it makes process_text raise internally:
a raising post (network error), a status of 400 or above (raise_for_status),
a body that fails to parse as JSON, or a parsed body on which the extraction
of the first choice's message content fails. -/
inductive FailsWith : NetOutcome → String → Prop where
  | netError (d : String) : FailsWith (.raised d) d
  | httpStatus {st : Nat} (sd : String) (b : BodyParse) (h : 400 ≤ st) :
      FailsWith (.got st sd b) sd
  | badJson {st : Nat} (sd d : String) (h : st < 400) :
      FailsWith (.got st sd (.malformed d)) d
  | missingField {st : Nat} (sd : String) {j : Json} {d : String}
      (h : st < 400) (he : extractContent j = .error d) :
      FailsWith (.got st sd (.parsed j)) d

/-! Lemmas about the rendering scan. -/

theorem replGo_fuel (r : List Char) :
    ∀ (f f' : Nat) (l : List Char), l.length ≤ f → l.length ≤ f' →
      replGo r f l = replGo r f' l := by
  intro f
  induction f with
  | zero =>
    intro f' l h _
    have hl : l = [] := List.eq_nil_of_length_eq_zero (Nat.le_zero.mp h)
    subst hl
    cases f' <;> rfl
  | succ g ih =>
    intro f' l h h'
    cases l with
    | nil => cases f' <;> rfl
    | cons c cs =>
      cases f' with
      | zero => simp at h'
      | succ g' =>
        have hcs : cs.length ≤ g := by simp [List.length_cons] at h; omega
        have hcs' : cs.length ≤ g' := by simp [List.length_cons] at h'; omega
        simp only [replGo]
        by_cases hm : markerL.isPrefixOf (c :: cs) = true
        · simp only [hm, if_true]
          congr 1
          exact ih g' _ (le_trans (by simp [List.length_drop]) hcs) (le_trans (by simp [List.length_drop]) hcs')
        · simp only [Bool.not_eq_true] at hm
          simp only [hm, Bool.false_eq_true, if_false]
          congr 1
          exact ih g' cs hcs hcs'

theorem replaceAllMarker_nil (r : List Char) : replaceAllMarker r [] = [] := rfl

theorem replaceAllMarker_cons_of_pos (r : List Char) (c : Char) (cs : List Char)
    (h : markerL.isPrefixOf (c :: cs) = true) :
    replaceAllMarker r (c :: cs) = r ++ replaceAllMarker r (cs.drop (markerL.length - 1)) := by
  unfold replaceAllMarker
  simp only [List.length_cons, replGo, h, if_true]
  congr 1
  exact replGo_fuel r cs.length _ _ (by simp [List.length_drop]) le_rfl

theorem replaceAllMarker_cons_of_neg (r : List Char) (c : Char) (cs : List Char)
    (h : markerL.isPrefixOf (c :: cs) = false) :
    replaceAllMarker r (c :: cs) = c :: replaceAllMarker r cs := by
  unfold replaceAllMarker
  simp only [List.length_cons, replGo, h, Bool.false_eq_true, if_false]

theorem countOcc_cons (pat : List Char) (c : Char) (cs : List Char) :
    countOcc pat (c :: cs) = (if pat.isPrefixOf (c :: cs) then 1 else 0) + countOcc pat cs := rfl

theorem markerL_ne_nil : markerL ≠ [] := by decide

/-- A prefix of an append that is at least as long as the first summand
starts with that summand. -/
theorem take_eq_of_prefix_append (p a b : List Char) (h : p <+: a ++ b)
    (hl : a.length ≤ p.length) : p.take a.length = a := by
  obtain ⟨t, ht⟩ := h
  have h2 := congrArg (List.take a.length) ht
  rw [List.take_append_eq_append_take, Nat.sub_eq_zero_of_le hl, List.take_zero,
    List.append_nil, List.take_left] at h2
  exact h2

/-- The marker does not overlap itself: it never occurs starting strictly
inside another occurrence. -/
theorem marker_no_self_overlap (j : Nat) (hj : 0 < j) (hlt : j < markerL.length)
    (s : List Char) : ¬ (markerL <+: markerL.drop j ++ s) := by
  intro h
  have hlen : (markerL.drop j).length ≤ markerL.length := by
    simp [List.length_drop]
  have h2 := take_eq_of_prefix_append markerL (markerL.drop j) s h hlen
  rw [List.length_drop] at h2
  have key : ∀ j, j < markerL.length → 0 < j →
      markerL.take (markerL.length - j) ≠ markerL.drop j := by decide
  exact key j hlt hj h2

theorem countOcc_eq_of_no_match (s : List Char) :
    ∀ (a : List Char), (∀ j, j < a.length → ¬ (markerL <+: (a ++ s).drop j)) →
      countOcc markerL (a ++ s) = countOcc markerL s := by
  intro a
  induction a with
  | nil => intro _; rfl
  | cons c a ih =>
    intro h
    have h0 : ¬ (markerL <+: c :: (a ++ s)) := by simpa using h 0 (by simp)
    have hb : markerL.isPrefixOf (c :: (a ++ s)) = false := by
      rw [← Bool.not_eq_true]
      intro hx
      exact h0 (List.isPrefixOf_iff_prefix.mp hx)
    have step : countOcc markerL ((c :: a) ++ s) = countOcc markerL (a ++ s) := by
      rw [List.cons_append, countOcc_cons, hb]
      simp
    rw [step]
    exact ih (fun j hj => by
      have h3 := h (j + 1) (by simp [List.length_cons]; omega)
      simpa [List.drop_succ_cons] using h3)

theorem countOcc_marker_append (s : List Char) :
    countOcc markerL (markerL ++ s) = 1 + countOcc markerL s := by
  obtain ⟨mh, mt, hm⟩ := List.exists_cons_of_ne_nil markerL_ne_nil
  have hcons : markerL ++ s = mh :: (mt ++ s) := by rw [hm, List.cons_append]
  have hpre : markerL.isPrefixOf (mh :: (mt ++ s)) = true := by
    rw [← hcons]
    exact List.isPrefixOf_iff_prefix.mpr (List.prefix_append _ _)
  rw [hcons, countOcc_cons, hpre]
  have hone : (if (true = true) then (1 : Nat) else 0) = 1 := rfl
  rw [hone]
  congr 1
  apply countOcc_eq_of_no_match
  intro j hj hcontra
  have hdrop : (mt ++ s).drop j = markerL.drop (j + 1) ++ s := by
    rw [List.drop_append_eq_append_drop, Nat.sub_eq_zero_of_le (le_of_lt hj), List.drop_zero,
      hm, List.drop_succ_cons]
  rw [hdrop] at hcontra
  exact marker_no_self_overlap (j + 1) (Nat.succ_pos j)
    (by rw [hm, List.length_cons]; omega) s hcontra

theorem joinSep_pair (sep p q : List Char) (ps : List (List Char)) :
    joinSep sep (p :: q :: ps) = p ++ sep ++ joinSep sep (q :: ps) := rfl

theorem joinSep_cons_head (sep : List Char) (c : Char) (p : List Char)
    (ps : List (List Char)) :
    joinSep sep ((c :: p) :: ps) = c :: joinSep sep (p :: ps) := by
  cases ps with
  | nil => rfl
  | cons q qs => simp [joinSep_pair, List.cons_append]

/-- Replacing in a list that starts with the marker emits the replacement and
continues after the marker. -/
theorem replaceAllMarker_marker_append (r s : List Char) :
    replaceAllMarker r (markerL ++ s) = r ++ replaceAllMarker r s := by
  obtain ⟨mh, mt, hmk⟩ := List.exists_cons_of_ne_nil markerL_ne_nil
  have hcons : markerL ++ s = mh :: (mt ++ s) := by rw [hmk, List.cons_append]
  have hpre : markerL.isPrefixOf (mh :: (mt ++ s)) = true := by
    rw [← hcons]
    exact List.isPrefixOf_iff_prefix.mpr (List.prefix_append _ _)
  rw [hcons, replaceAllMarker_cons_of_pos r mh (mt ++ s) hpre]
  congr 1
  have hlen2 : markerL.length - 1 = mt.length := by rw [hmk]; simp
  rw [hlen2, List.drop_left]

/-- Factorization of one replace pass: any template splits into the parts
around its marker occurrences; replacement joins the same parts with the
replacement instead of the marker, replacing every occurrence in a single
non-recursive pass. -/
theorem replace_parts (K : List Char) :
    ∀ (n : Nat) (T : List Char), T.length ≤ n →
      ∃ ps : List (List Char), ps ≠ [] ∧ ps.length = countOcc markerL T + 1 ∧
        T = joinSep markerL ps ∧ replaceAllMarker K T = joinSep K ps := by
  intro n
  induction n with
  | zero =>
    intro T h
    have hT : T = [] := List.eq_nil_of_length_eq_zero (Nat.le_zero.mp h)
    subst hT
    exact ⟨[[]], by simp, rfl, rfl, rfl⟩
  | succ m ih =>
    intro T h
    cases hT : T with
    | nil => exact ⟨[[]], by simp, rfl, rfl, rfl⟩
    | cons c cs =>
      subst hT
      by_cases hm : markerL.isPrefixOf (c :: cs) = true
      · obtain ⟨s, hs⟩ := List.isPrefixOf_iff_prefix.mp hm
        have hsl : s.length ≤ m := by
          have h1 : markerL.length + s.length = cs.length + 1 := by
            have := congrArg List.length hs
            simpa [List.length_append] using this
          have h2 : 0 < markerL.length := List.length_pos.mpr markerL_ne_nil
          simp [List.length_cons] at h
          omega
        obtain ⟨ps, hne, hlen, hjoin, hrepl⟩ := ih s hsl
        refine ⟨[] :: ps, by simp, ?_, ?_, ?_⟩
        · rw [List.length_cons, hlen, ← hs, countOcc_marker_append]
          omega
        · obtain ⟨p0, ps', hps⟩ := List.exists_cons_of_ne_nil hne
          rw [hps] at hjoin ⊢
          rw [joinSep_pair, ← hs, hjoin]
          simp
        · obtain ⟨p0, ps', hps⟩ := List.exists_cons_of_ne_nil hne
          rw [← hs, replaceAllMarker_marker_append, hrepl, hps, joinSep_pair]
          simp
      · have hm' : markerL.isPrefixOf (c :: cs) = false := by
          cases hx : markerL.isPrefixOf (c :: cs) with
          | false => rfl
          | true => exact absurd hx hm
        have hcl : cs.length ≤ m := by simp [List.length_cons] at h; omega
        obtain ⟨ps, hne, hlen, hjoin, hrepl⟩ := ih cs hcl
        obtain ⟨p0, ps', hps⟩ := List.exists_cons_of_ne_nil hne
        refine ⟨(c :: p0) :: ps', by simp, ?_, ?_, ?_⟩
        · have h1 : ((c :: p0) :: ps').length = ps.length := by
            rw [hps, List.length_cons, List.length_cons]
          rw [h1, hlen, countOcc_cons, hm']
          simp
        · rw [joinSep_cons_head, ← hps, ← hjoin]
        · rw [joinSep_cons_head, ← hps, ← hrepl]
          exact replaceAllMarker_cons_of_neg K c cs hm'

/-- Every marker occurrence yields a split of the list around the marker. -/
theorem exists_parts_of_countOcc_pos :
    ∀ (l : List Char), 1 ≤ countOcc markerL l → ∃ p s, l = p ++ markerL ++ s := by
  intro l
  induction l with
  | nil => intro h; simp [countOcc] at h
  | cons c cs ih =>
    intro h
    by_cases hm : markerL.isPrefixOf (c :: cs) = true
    · obtain ⟨s, hs⟩ := List.isPrefixOf_iff_prefix.mp hm
      exact ⟨[], s, by rw [← hs]; simp⟩
    · have hm' : markerL.isPrefixOf (c :: cs) = false := by
        cases hx : markerL.isPrefixOf (c :: cs) with
        | false => rfl
        | true => exact absurd hx hm
      rw [countOcc_cons, hm'] at h
      simp at h
      obtain ⟨p, s, hps⟩ := ih (by omega)
      exact ⟨c :: p, s, by simp [hps, List.cons_append, List.append_assoc]⟩

/-- Conversely, a split around the marker witnesses a positive count. -/
theorem countOcc_pos_of_parts (p s : List Char) :
    1 ≤ countOcc markerL (p ++ markerL ++ s) := by
  induction p with
  | nil =>
    rw [List.nil_append, countOcc_marker_append]
    omega
  | cons c p ih =>
    simp only [List.cons_append]
    rw [countOcc_cons]
    omega

/-! Lemmas about the batching loop. -/

theorem chunksGo_fuel {α : Type} (B : Nat) :
    ∀ (f f' : Nat) (l : List α), l.length ≤ f → l.length ≤ f' →
      chunksGo B f l = chunksGo B f' l := by
  intro f
  induction f with
  | zero =>
    intro f' l h _
    have hl : l = [] := List.eq_nil_of_length_eq_zero (Nat.le_zero.mp h)
    subst hl
    cases f' <;> rfl
  | succ g ih =>
    intro f' l h h'
    cases l with
    | nil => cases f' <;> rfl
    | cons x xs =>
      cases f' with
      | zero => simp at h'
      | succ g' =>
        have hxs : xs.length ≤ g := by simp [List.length_cons] at h; omega
        have hxs' : xs.length ≤ g' := by simp [List.length_cons] at h'; omega
        simp only [chunksGo]
        congr 1
        exact ih g' _ (le_trans (by simp [List.length_drop]) hxs)
          (le_trans (by simp [List.length_drop]) hxs')

theorem chunks_nil {α : Type} (B : Nat) : chunks B ([] : List α) = [] := rfl

theorem chunks_cons {α : Type} (B : Nat) (x : α) (xs : List α) :
    chunks B (x :: xs) = (x :: xs).take B :: chunks B (xs.drop (B - 1)) := by
  unfold chunks
  simp only [List.length_cons, chunksGo]
  congr 1
  exact chunksGo_fuel B xs.length _ _ (by simp [List.length_drop]) le_rfl

theorem chunks_drop_eq {α : Type} (B : Nat) (hB : 1 ≤ B) (x : α) (xs : List α) :
    xs.drop (B - 1) = (x :: xs).drop B := by
  obtain ⟨k, rfl⟩ : ∃ k, B = k + 1 := ⟨B - 1, by omega⟩
  simp [List.drop_succ_cons]

theorem chunks_flatten {α : Type} (B : Nat) (hB : 1 ≤ B) :
    ∀ (n : Nat) (l : List α), l.length ≤ n → (chunks B l).flatten = l := by
  intro n
  induction n with
  | zero =>
    intro l h
    have hl : l = [] := List.eq_nil_of_length_eq_zero (Nat.le_zero.mp h)
    subst hl
    rfl
  | succ m ih =>
    intro l h
    cases l with
    | nil => rfl
    | cons x xs =>
      rw [chunks_cons, List.flatten_cons, chunks_drop_eq B hB x xs]
      rw [ih ((x :: xs).drop B)
        (by simp [List.length_drop, List.length_cons] at h ⊢; omega)]
      exact List.take_append_drop B (x :: xs)

theorem chunks_length_eq {α : Type} (B : Nat) (hB : 1 ≤ B) :
    ∀ (n : Nat) (l : List α), l.length ≤ n →
      (chunks B l).length = (l.length + B - 1) / B := by
  intro n
  induction n with
  | zero =>
    intro l h
    have hl : l = [] := List.eq_nil_of_length_eq_zero (Nat.le_zero.mp h)
    subst hl
    simp [chunks_nil, Nat.div_eq_of_lt (by omega : B - 1 < B)]
  | succ m ih =>
    intro l h
    cases l with
    | nil => simp [chunks_nil, Nat.div_eq_of_lt (by omega : B - 1 < B)]
    | cons x xs =>
      rw [chunks_cons, List.length_cons, chunks_drop_eq B hB x xs]
      rw [ih ((x :: xs).drop B)
        (by simp [List.length_drop, List.length_cons] at h ⊢; omega)]
      rw [List.length_drop, List.length_cons]
      rcases le_or_lt (xs.length + 1) B with hLB | hBL
      · have e1 : xs.length + 1 - B + B - 1 = B - 1 := by omega
        have e2 : xs.length + 1 + B - 1 = xs.length + B := by omega
        have d1 : (B - 1) / B = 0 := Nat.div_eq_of_lt (by omega)
        have d2 : (xs.length + B) / B = xs.length / B + 1 :=
          Nat.add_div_right _ (by omega)
        have d3 : xs.length / B = 0 := Nat.div_eq_of_lt (by omega)
        rw [e1, e2, d1, d2, d3]
      · have e1 : xs.length + 1 + B - 1 = (xs.length + 1 - B + B - 1) + B := by omega
        rw [e1, Nat.add_div_right _ (by omega : 0 < B)]

theorem chunks_dropLast_length {α : Type} (B : Nat) (hB : 1 ≤ B) :
    ∀ (n : Nat) (l : List α), l.length ≤ n →
      ∀ c ∈ (chunks B l).dropLast, c.length = B := by
  intro n
  induction n with
  | zero =>
    intro l h c hc
    have hl : l = [] := List.eq_nil_of_length_eq_zero (Nat.le_zero.mp h)
    subst hl
    simp [chunks_nil] at hc
  | succ m ih =>
    intro l h c hc
    cases l with
    | nil => simp [chunks_nil] at hc
    | cons x xs =>
      rw [chunks_cons, chunks_drop_eq B hB x xs] at hc
      by_cases hd : (x :: xs).drop B = []
      · rw [hd, chunks_nil] at hc
        simp at hc
      · have hne : chunks B ((x :: xs).drop B) ≠ [] := by
          obtain ⟨y, ys, hys⟩ := List.exists_cons_of_ne_nil hd
          rw [hys, chunks_cons]
          simp
        rw [List.dropLast_cons_of_ne_nil hne] at hc
        rcases List.mem_cons.mp hc with hc1 | hc2
        · subst hc1
          rw [List.length_take, List.length_cons]
          have hBle : B ≤ xs.length + 1 := by
            by_contra hcon
            exact hd (List.drop_eq_nil_of_le (by simp [List.length_cons]; omega))
          omega
        · exact ih ((x :: xs).drop B)
            (by simp [List.length_drop, List.length_cons] at h ⊢; omega) c hc2

theorem chunks_getLast_length {α : Type} (B : Nat) (hB : 1 ≤ B) :
    ∀ (n : Nat) (l : List α), l.length ≤ n →
      ∀ c, (chunks B l).getLast? = some c →
        c.length = if l.length % B = 0 then B else l.length % B := by
  intro n
  induction n with
  | zero =>
    intro l h c hc
    have hl : l = [] := List.eq_nil_of_length_eq_zero (Nat.le_zero.mp h)
    subst hl
    simp [chunks_nil] at hc
  | succ m ih =>
    intro l h c hc
    cases l with
    | nil => simp [chunks_nil] at hc
    | cons x xs =>
      rw [chunks_cons, chunks_drop_eq B hB x xs] at hc
      by_cases hd : (x :: xs).drop B = []
      · rw [hd, chunks_nil] at hc
        have hc' : c = (x :: xs).take B := by
          simp [List.getLast?] at hc
          exact hc.symm
        have hLB : xs.length + 1 ≤ B := by
          by_contra hcon
          have h1 : ((x :: xs).drop B).length = xs.length + 1 - B := by
            simp [List.length_drop, List.length_cons]
          rw [hd] at h1
          simp at h1
          omega
        subst hc'
        rw [List.length_take, List.length_cons]
        by_cases h0 : (xs.length + 1) % B = 0
        · rw [if_pos h0]
          have hEq : xs.length + 1 = B := by
            rcases Nat.lt_or_ge (xs.length + 1) B with hlt | hge
            · have := Nat.mod_eq_of_lt hlt
              omega
            · omega
          omega
        · rw [if_neg h0]
          have hlt : xs.length + 1 < B := by
            rcases Nat.lt_or_ge (xs.length + 1) B with hlt | hge
            · exact hlt
            · have hEq : xs.length + 1 = B := by omega
              rw [hEq, Nat.mod_self] at h0
              exact absurd rfl h0
          rw [Nat.mod_eq_of_lt hlt]
          omega
      · have hstep : ((x :: xs).take B :: chunks B ((x :: xs).drop B)).getLast? =
            (chunks B ((x :: xs).drop B)).getLast? := by
          obtain ⟨y, ys, hys⟩ := List.exists_cons_of_ne_nil hd
          rw [hys, chunks_cons]
          exact List.getLast?_cons_cons
        rw [hstep] at hc
        have hres := ih ((x :: xs).drop B)
          (by simp [List.length_drop, List.length_cons] at h ⊢; omega) c hc
        have hBlt : B < xs.length + 1 := by
          by_contra hcon
          exact hd (List.drop_eq_nil_of_le (by simp [List.length_cons]; omega))
        have hmod : ((x :: xs).drop B).length % B = (x :: xs).length % B := by
          rw [List.length_drop, List.length_cons]
          conv_rhs => rw [show xs.length + 1 = (xs.length + 1 - B) + B by omega]
          rw [Nat.add_mod_right]
        rw [hmod] at hres
        exact hres

/-! Lemmas about run_gpt. -/

theorem process_text_fst (net : Request → NetOutcome)
    (text prompt_template api_key : String) :
    (process_text net text prompt_template api_key).1 = text := rfl

theorem foldl_gptStep (net : Request → NetOutcome) (prompt_template api_key : String) :
    ∀ (bs : List (List String)) (acc : List (String × Json) × List Request),
      bs.foldl (gptStep net prompt_template api_key) acc =
        (acc.1 ++ bs.flatten.map (fun t => process_text net t prompt_template api_key),
         acc.2 ++ bs.flatten.map (fun t => mkRequest prompt_template api_key t)) := by
  intro bs
  induction bs with
  | nil => intro acc; simp
  | cons b bs ih =>
    intro acc
    rw [List.foldl_cons, ih, List.flatten_cons]
    simp [gptStep, List.map_append, List.append_assoc]

theorem run_gpt_eq (net : Request → NetOutcome) (keywords : List String)
    (prompt_template : String) (batch_size : Nat) (api_key : String)
    (hB : 1 ≤ batch_size) :
    run_gpt net keywords prompt_template batch_size api_key =
      (keywords.map (fun t => process_text net t prompt_template api_key),
       keywords.map (fun t => mkRequest prompt_template api_key t)) := by
  unfold run_gpt
  rw [foldl_gptStep,
    chunks_flatten batch_size hB keywords.length keywords le_rfl]
  simp

theorem run_gpt_after_eq (net : Request → NetOutcome) (keywords : List String)
    (prompt_template : String) (batch_size : Nat) (api_key : String) (n : Nat) :
    run_gpt_after net keywords prompt_template batch_size api_key n =
      (((chunks batch_size keywords).take n).flatten.map
          (fun t => process_text net t prompt_template api_key),
       ((chunks batch_size keywords).take n).flatten.map
          (fun t => mkRequest prompt_template api_key t)) := by
  unfold run_gpt_after
  rw [foldl_gptStep]
  simp

theorem map_fst_process_text (net : Request → NetOutcome)
    (prompt_template api_key : String) (l : List String) :
    (l.map (fun t => process_text net t prompt_template api_key)).map Prod.fst = l := by
  rw [List.map_map]
  have hcomp : (Prod.fst ∘ fun t => process_text net t prompt_template api_key) =
      fun t : String => t := by
    funext t
    rfl
  rw [hcomp]
  exact List.map_id' l

/-! Lemmas about keyword preprocessing. -/

theorem normalizeCrLf_eq_self : ∀ (l : List Char), '\r' ∉ l → normalizeCrLf l = l := by
  intro l
  induction l with
  | nil => intro _; rfl
  | cons c rest ih =>
    intro h
    cases rest with
    | nil => rfl
    | cons d rest2 =>
      have hc : c ≠ '\r' := by
        intro hh
        exact h (by rw [hh]; exact List.mem_cons_self _ _)
      have hcd : (c == '\r' && d == '\n') = false := by
        simp [hc]
      have hres := ih (fun hh => h (List.mem_cons_of_mem c hh))
      simp only [normalizeCrLf, hcd, Bool.false_eq_true, if_false]
      rw [hres]

theorem splitBreaks_line_append (r : List Char) :
    ∀ (line : List Char), (∀ c ∈ line, isLineBreak c = false) →
      splitBreaks (line ++ '\n' :: r) = line :: splitBreaks r := by
  intro line
  induction line with
  | nil =>
    intro _
    show splitBreaks ('\n' :: r) = [] :: splitBreaks r
    simp only [splitBreaks]
    rw [show isLineBreak '\n' = true from rfl]
    simp
  | cons c line' ih =>
    intro hl
    have hc : isLineBreak c = false := hl c (List.mem_cons_self _ _)
    have ihr := ih (fun x hx => hl x (List.mem_cons_of_mem c hx))
    show splitBreaks (c :: (line' ++ '\n' :: r)) = (c :: line') :: splitBreaks r
    simp only [splitBreaks, hc, Bool.false_eq_true, if_false]
    rw [ihr]

theorem splitBreaks_no_break : ∀ (line : List Char), line ≠ [] →
    (∀ c ∈ line, isLineBreak c = false) → splitBreaks line = [line] := by
  intro line
  induction line with
  | nil => intro h _; exact absurd rfl h
  | cons c line' ih =>
    intro _ hl
    have hc : isLineBreak c = false := hl c (List.mem_cons_self _ _)
    simp only [splitBreaks, hc, Bool.false_eq_true, if_false]
    by_cases hline' : line' = []
    · subst hline'
      rfl
    · rw [ih hline' (fun x hx => hl x (List.mem_cons_of_mem c hx))]

theorem mem_joinSep (sep : List Char) :
    ∀ (ps : List (List Char)) (c : Char),
      c ∈ joinSep sep ps → c ∈ sep ∨ ∃ p ∈ ps, c ∈ p := by
  intro ps
  induction ps with
  | nil => intro c hc; simp [joinSep] at hc
  | cons p ps ih =>
    intro c hc
    cases ps with
    | nil =>
      right
      exact ⟨p, List.mem_cons_self _ _, hc⟩
    | cons q ps2 =>
      rw [joinSep_pair] at hc
      rcases List.mem_append.mp hc with h1 | h2
      · rcases List.mem_append.mp h1 with h3 | h4
        · right
          exact ⟨p, List.mem_cons_self _ _, h3⟩
        · left
          exact h4
      · rcases ih c h2 with h5 | ⟨r, hr, hcr⟩
        · left
          exact h5
        · right
          exact ⟨r, List.mem_cons_of_mem p hr, hcr⟩

theorem splitBreaks_joinSep :
    ∀ (ds : List (List Char)),
      (∀ d ∈ ds, ∀ c ∈ d, isLineBreak c = false) →
      splitBreaks (joinSep ['\n'] ds) = ds ∨
      (∃ ds', ds = ds' ++ [[]] ∧ splitBreaks (joinSep ['\n'] ds) = ds') := by
  intro ds
  induction ds with
  | nil => intro _; exact Or.inl rfl
  | cons d ds ih =>
    intro h
    cases ds with
    | nil =>
      by_cases hd : d = []
      · subst hd
        exact Or.inr ⟨[], rfl, rfl⟩
      · exact Or.inl (splitBreaks_no_break d hd (h d (List.mem_cons_self _ _)))
    | cons e ds2 =>
      have hjoin : joinSep ['\n'] (d :: e :: ds2) =
          d ++ '\n' :: joinSep ['\n'] (e :: ds2) := by
        rw [joinSep_pair]
        simp [List.append_assoc]
      rw [hjoin, splitBreaks_line_append _ d (h d (List.mem_cons_self _ _))]
      have htail : ∀ d' ∈ e :: ds2, ∀ c ∈ d', isLineBreak c = false :=
        fun d' hd' => h d' (List.mem_cons_of_mem d hd')
      rcases ih htail with h1 | ⟨ds', hds', h2⟩
      · exact Or.inl (by rw [h1])
      · exact Or.inr ⟨d :: ds', by rw [hds']; rfl, by rw [h2]⟩

theorem filter_map_comm (f : String → String) (p : String → Bool) :
    ∀ (l : List String), (l.map f).filter p = (l.filter (fun x => p (f x))).map f := by
  intro l
  induction l with
  | nil => rfl
  | cons x xs ih =>
    simp only [List.map_cons, List.filter_cons]
    by_cases h : p (f x) = true
    · simp [h, ih]
    · simp [h, ih]

theorem map_mk_map_data (ls : List String) :
    ((ls.map String.data).map (fun l => (⟨l⟩ : String))) = ls := by
  rw [List.map_map]
  have : ((fun l => (⟨l⟩ : String)) ∘ String.data) = fun s : String => s := by
    funext s
    rfl
  rw [this]
  exact List.map_id' ls

/-! The claims. -/

/-- C1: for every keyword, any failure during dispatch (network error, a
status rejected by raise_for_status, malformed JSON, missing expected fields)
is caught inside process_text and yields the pair of the original keyword
with a string prefixed by "Error: " followed by the failure's textual
description; the keyword is dispatched exactly once (one request in the
trace, so no retry), and run_gpt still maps every keyword of every chunk to
its own independent result, so a failure never aborts the batch or the run. -/
theorem claim1_dispatch_failure_caught (net : Request → NetOutcome)
    (prompt_template api_key keyword d : String)
    (h : FailsWith (net (mkRequest prompt_template api_key keyword)) d) :
    process_text net keyword prompt_template api_key =
      (keyword, .str ("Error: " ++ d)) ∧
    ∀ (keywords : List String) (batch_size : Nat), 1 ≤ batch_size →
      (run_gpt net keywords prompt_template batch_size api_key).1 =
        keywords.map (fun t => process_text net t prompt_template api_key) ∧
      (run_gpt net keywords prompt_template batch_size api_key).2 =
        keywords.map (fun t => mkRequest prompt_template api_key t) := by
  constructor
  · unfold process_text
    congr 1
    generalize hx : net (mkRequest prompt_template api_key keyword) = o at h
    cases h with
    | netError d => rfl
    | @httpStatus st sd b hst =>
      simp only [handleOutcome]
      rw [if_pos hst]
    | @badJson st sd d' hst =>
      simp only [handleOutcome]
      rw [if_neg (show ¬ 400 ≤ st from by omega)]
    | @missingField st sd j d' hst he =>
      simp only [handleOutcome]
      rw [if_neg (show ¬ 400 ≤ st from by omega)]
      simp only [he]
  · intro keywords batch_size hB
    rw [run_gpt_eq net keywords prompt_template batch_size api_key hB]
    exact ⟨rfl, rfl⟩

/-- C1 witness: a simulated connection failure, applied at keyword "x". -/
theorem claim1_witness :
    FailsWith ((fun _ => NetOutcome.raised "Cannot connect to host")
        (mkRequest "tpl" "sk" "x")) "Cannot connect to host" ∧
    (process_text (fun _ => NetOutcome.raised "Cannot connect to host")
        "x" "tpl" "sk" = ("x", .str ("Error: " ++ "Cannot connect to host")) ∧
      ∀ (keywords : List String) (batch_size : Nat), 1 ≤ batch_size →
        (run_gpt (fun _ => NetOutcome.raised "Cannot connect to host")
            keywords "tpl" batch_size "sk").1 =
          keywords.map (fun t =>
            process_text (fun _ => NetOutcome.raised "Cannot connect to host")
              t "tpl" "sk") ∧
        (run_gpt (fun _ => NetOutcome.raised "Cannot connect to host")
            keywords "tpl" batch_size "sk").2 =
          keywords.map (fun t => mkRequest "tpl" "sk" t)) :=
  ⟨FailsWith.netError _,
   claim1_dispatch_failure_caught _ _ _ _ _ (FailsWith.netError _)⟩

/-- C2: for every keyword list and every batch size of at least 1, run_gpt
returns exactly one result pair per input keyword, counting error results the
same as successes. -/
theorem claim2_one_result_per_keyword (net : Request → NetOutcome)
    (keywords : List String) (prompt_template : String) (batch_size : Nat)
    (api_key : String) (hB : 1 ≤ batch_size) :
    (run_gpt net keywords prompt_template batch_size api_key).1.length =
      keywords.length := by
  rw [run_gpt_eq net keywords prompt_template batch_size api_key hB]
  simp [List.length_map]

/-- C2 witness: three keywords dispatched (and all failing) with batch size 2
still give exactly three result pairs. -/
theorem claim2_witness :
    1 ≤ 2 ∧
    (run_gpt (fun _ => NetOutcome.raised "offline")
        ["a", "b", "c"] "tpl" 2 "sk").1.length =
      (["a", "b", "c"] : List String).length :=
  ⟨by decide, claim2_one_result_per_keyword _ _ _ _ _ (by decide)⟩

/-- C3: for every keyword list of length L and every batch size B of at least
1, the batch runner partitions the list into consecutive chunks (their
concatenation is the list) numbering exactly the ceiling of L/B, every chunk
except the last has length B, and the last chunk has length L mod B (or B
when L mod B is 0). -/
theorem claim3_chunking (batch_size : Nat) (keywords : List String)
    (hB : 1 ≤ batch_size) :
    (chunks batch_size keywords).flatten = keywords ∧
    (chunks batch_size keywords).length =
      (keywords.length + batch_size - 1) / batch_size ∧
    (∀ c ∈ (chunks batch_size keywords).dropLast, c.length = batch_size) ∧
    (∀ c, (chunks batch_size keywords).getLast? = some c →
      c.length = if keywords.length % batch_size = 0 then batch_size
                 else keywords.length % batch_size) :=
  ⟨chunks_flatten batch_size hB keywords.length keywords le_rfl,
   chunks_length_eq batch_size hB keywords.length keywords le_rfl,
   chunks_dropLast_length batch_size hB keywords.length keywords le_rfl,
   chunks_getLast_length batch_size hB keywords.length keywords le_rfl⟩

/-- C3 witness: 25 keywords with batch size 10 give 3 chunks of sizes
10, 10, 5. -/
theorem claim3_witness :
    (1 ≤ 10 ∧
      ((chunks 10 (List.replicate 25 "kw")).flatten = List.replicate 25 "kw" ∧
       (chunks 10 (List.replicate 25 "kw")).length =
         ((List.replicate 25 "kw").length + 10 - 1) / 10 ∧
       (∀ c ∈ (chunks 10 (List.replicate 25 "kw")).dropLast, c.length = 10) ∧
       (∀ c, (chunks 10 (List.replicate 25 "kw")).getLast? = some c →
         c.length = if (List.replicate 25 "kw").length % 10 = 0 then 10
                    else (List.replicate 25 "kw").length % 10))) ∧
    (chunks 10 (List.replicate 25 "kw")).map List.length = [10, 10, 5] :=
  ⟨⟨by decide, claim3_chunking 10 (List.replicate 25 "kw") (by decide)⟩,
   by decide⟩

/-- C9: the sequence of first components of run_gpt's results equals the
input keyword list exactly, in global input order, and the invariant holds
after every chunk: the first components accumulated after any number of loop
iterations form a prefix of the input list. -/
theorem claim9_input_order (net : Request → NetOutcome) (keywords : List String)
    (prompt_template : String) (batch_size : Nat) (api_key : String)
    (hB : 1 ≤ batch_size) :
    (run_gpt net keywords prompt_template batch_size api_key).1.map Prod.fst =
      keywords ∧
    ∀ n : Nat,
      (run_gpt_after net keywords prompt_template batch_size api_key n).1.map
        Prod.fst <+: keywords := by
  constructor
  · rw [run_gpt_eq net keywords prompt_template batch_size api_key hB]
    exact map_fst_process_text net prompt_template api_key keywords
  · intro n
    rw [run_gpt_after_eq net keywords prompt_template batch_size api_key n]
    dsimp only
    rw [map_fst_process_text]
    refine ⟨((chunks batch_size keywords).drop n).flatten, ?_⟩
    rw [← List.flatten_append, List.take_append_drop]
    exact chunks_flatten batch_size hB keywords.length keywords le_rfl

/-- C9 witness: three keywords with batch size 2; the result's first
components are the input list and every partial stage is a prefix of it. -/
theorem claim9_witness :
    1 ≤ 2 ∧
    ((run_gpt (fun _ => NetOutcome.raised "offline")
        ["a", "b", "c"] "tpl" 2 "sk").1.map Prod.fst = ["a", "b", "c"] ∧
      ∀ n : Nat,
        (run_gpt_after (fun _ => NetOutcome.raised "offline")
            ["a", "b", "c"] "tpl" 2 "sk" n).1.map Prod.fst <+:
          ["a", "b", "c"]) :=
  ⟨by decide, claim9_input_order _ _ _ _ _ (by decide)⟩

/-- C4 counterexample: the claim as stated fails.  With the template
"a marker" (one marker occurrence) and the keyword "a", the rendered prompt
"a a" contains two occurrences of the keyword, not exactly one; and with a
template whose single marker occurrence is surrounded by brace fragments that
recombine, rendering with the empty keyword leaves one marker occurrence in
the output, not zero. -/
theorem claim4_counterexample :
    countOcc markerL ("a \x7b\x7bcell_value\x7d\x7d" : String).data = 1 ∧
    renderPrompt "a \x7b\x7bcell_value\x7d\x7d" "a" = "a a" ∧
    countOcc ("a" : String).data
      (renderPrompt "a \x7b\x7bcell_value\x7d\x7d" "a").data = 2 ∧
    countOcc markerL
      ("\x7b\x7b\x7b\x7bcell_value\x7d\x7dcell_value\x7d\x7d" : String).data = 1 ∧
    countOcc markerL
      (renderPrompt "\x7b\x7b\x7b\x7bcell_value\x7d\x7dcell_value\x7d\x7d" "").data = 1 := by
  decide

/-- C4 (amended): for every template containing the marker exactly once and
every keyword, rendering substitutes the keyword at the marker's position:
the template factors as p ++ marker ++ s and the rendered prompt is exactly
p ++ keyword ++ s.  The original occurrence-count guarantees (zero markers,
exactly one keyword occurrence) do not hold in general, as the counterexample
shows. -/
theorem claim4_render_at_marker (T K : String)
    (h : countOcc markerL T.data = 1) :
    ∃ p s, T.data = p ++ markerL ++ s ∧
      (renderPrompt T K).data = p ++ K.data ++ s := by
  obtain ⟨ps, hne, hlen, hjoin, hrepl⟩ :=
    replace_parts K.data T.data.length T.data le_rfl
  rw [h] at hlen
  obtain ⟨p0, ps1, rfl⟩ := List.exists_cons_of_ne_nil hne
  have h1 : ps1.length = 1 := by simpa using hlen
  obtain ⟨p1, ps2, rfl⟩ := List.exists_cons_of_ne_nil
    (show ps1 ≠ [] by intro hh; rw [hh] at h1; simp at h1)
  have h2 : ps2 = [] := List.eq_nil_of_length_eq_zero (by simpa using h1)
  subst h2
  refine ⟨p0, p1, ?_, ?_⟩
  · rw [hjoin, joinSep_pair]
    simp [joinSep, List.append_assoc]
  · show replaceAllMarker K.data T.data = p0 ++ K.data ++ p1
    rw [hrepl, joinSep_pair]
    simp [joinSep, List.append_assoc]

/-- C4 witness: the spec's scenario, template "cat: marker" with keyword
"soar tool". -/
theorem claim4_witness :
    countOcc markerL ("cat: \x7b\x7bcell_value\x7d\x7d" : String).data = 1 ∧
    ∃ p s, ("cat: \x7b\x7bcell_value\x7d\x7d" : String).data =
        p ++ markerL ++ s ∧
      (renderPrompt "cat: \x7b\x7bcell_value\x7d\x7d" "soar tool").data =
        p ++ ("soar tool" : String).data ++ s :=
  ⟨by decide, claim4_render_at_marker _ _ (by decide)⟩

/-- C5: rendering replaces every occurrence of the marker with the literal
keyword in one pass: a template with zero occurrences is returned unchanged
regardless of the keyword, and in general the template factors into
marker-separated parts (one more part than occurrences) that rendering
rejoins unchanged with the keyword in place of every marker — so all
occurrences are replaced, nothing is escaped, the substituted keyword is
never re-scanned, and rendering is a total pure function. -/
theorem claim5_replace_all (T K : String) :
    (countOcc markerL T.data = 0 → renderPrompt T K = T) ∧
    ∃ ps : List (List Char), ps.length = countOcc markerL T.data + 1 ∧
      T.data = joinSep markerL ps ∧
      (renderPrompt T K).data = joinSep K.data ps := by
  obtain ⟨ps, hne, hlen, hjoin, hrepl⟩ :=
    replace_parts K.data T.data.length T.data le_rfl
  constructor
  · intro h0
    rw [h0] at hlen
    obtain ⟨p0, ps1, rfl⟩ := List.exists_cons_of_ne_nil hne
    have h1 : ps1 = [] := List.eq_nil_of_length_eq_zero (by simpa using hlen)
    subst h1
    apply String.ext
    show replaceAllMarker K.data T.data = T.data
    rw [hrepl, hjoin]
    rfl
  · exact ⟨ps, hlen, hjoin, hrepl⟩

/-- C5 witness: a marker-free template is returned unchanged, and a template
with two marker occurrences factors into three parts rejoined around the
keyword. -/
theorem claim5_witness :
    (countOcc markerL ("no marker here" : String).data = 0 ∧
      renderPrompt "no marker here" "kw" = "no marker here") ∧
    ∃ ps : List (List Char),
      ps.length = countOcc markerL
        ("x\x7b\x7bcell_value\x7d\x7dy\x7b\x7bcell_value\x7d\x7dz" : String).data + 1 ∧
      ("x\x7b\x7bcell_value\x7d\x7dy\x7b\x7bcell_value\x7d\x7dz" : String).data =
        joinSep markerL ps ∧
      (renderPrompt "x\x7b\x7bcell_value\x7d\x7dy\x7b\x7bcell_value\x7d\x7dz" "kw").data =
        joinSep ("kw" : String).data ps :=
  ⟨⟨by decide, (claim5_replace_all "no marker here" "kw").1 (by decide)⟩,
   (claim5_replace_all "x\x7b\x7bcell_value\x7d\x7dy\x7b\x7bcell_value\x7d\x7dz" "kw").2⟩

/-- C10: when the template mentions the marker at least once (so the keyword
is substituted) and the keyword itself contains the marker, the rendered
prompt still contains the marker: the single literal pass never re-substitutes
marker occurrences introduced by the keyword, and the rendered prompt is sent
to the API as-is. -/
theorem claim10_marker_in_keyword (T K : String)
    (hT : 1 ≤ countOcc markerL T.data) (hK : 1 ≤ countOcc markerL K.data) :
    1 ≤ countOcc markerL (renderPrompt T K).data := by
  obtain ⟨ps, hne, hlen, hjoin, hrepl⟩ :=
    replace_parts K.data T.data.length T.data le_rfl
  obtain ⟨p0, ps1, rfl⟩ := List.exists_cons_of_ne_nil hne
  have hps1 : ps1 ≠ [] := by
    intro hh
    rw [hh] at hlen
    simp at hlen
    omega
  obtain ⟨p1, ps2, rfl⟩ := List.exists_cons_of_ne_nil hps1
  obtain ⟨a, b, hK2⟩ := exists_parts_of_countOcc_pos K.data hK
  have hrend : (renderPrompt T K).data =
      p0 ++ K.data ++ joinSep K.data (p1 :: ps2) := by
    show replaceAllMarker K.data T.data = _
    rw [hrepl, joinSep_pair]
  rw [hrend, hK2]
  have hres : p0 ++ (a ++ markerL ++ b) ++ joinSep (a ++ markerL ++ b) (p1 :: ps2) =
      (p0 ++ a) ++ markerL ++ (b ++ joinSep (a ++ markerL ++ b) (p1 :: ps2)) := by
    simp [List.append_assoc]
  rw [hres]
  exact countOcc_pos_of_parts _ _

/-- C10 witness: both the template and the keyword contain the marker; the
rendered prompt still does. -/
theorem claim10_witness :
    1 ≤ countOcc markerL ("pre \x7b\x7bcell_value\x7d\x7d post" : String).data ∧
    1 ≤ countOcc markerL ("k \x7b\x7bcell_value\x7d\x7d" : String).data ∧
    1 ≤ countOcc markerL
      (renderPrompt "pre \x7b\x7bcell_value\x7d\x7d post"
        "k \x7b\x7bcell_value\x7d\x7d").data :=
  ⟨by decide, by decide, claim10_marker_in_keyword _ _ (by decide) (by decide)⟩

/-- C6: an empty submitted credential, or keyword input whose lines all trim
to blank, aborts the Run click with the corresponding user-visible
configuration error before run_gpt is invoked, with an empty request trace
(zero network calls); otherwise the run proceeds to run_gpt. -/
theorem claim6_validation (net : Request → NetOutcome)
    (api_key keywords_input prompt_template : String) (batch_size : Nat) :
    (api_key = "" →
      mainRun net api_key keywords_input prompt_template batch_size =
        (.configError "Please enter your OpenAI API Key.", [])) ∧
    (api_key ≠ "" → parseKeywords keywords_input = [] →
      mainRun net api_key keywords_input prompt_template batch_size =
        (.configError "Please enter at least one keyword.", [])) ∧
    (api_key ≠ "" → parseKeywords keywords_input ≠ [] →
      mainRun net api_key keywords_input prompt_template batch_size =
        (.completed (run_gpt net (parseKeywords keywords_input) prompt_template
            batch_size api_key).1,
         (run_gpt net (parseKeywords keywords_input) prompt_template
            batch_size api_key).2)) := by
  refine ⟨?_, ?_, ?_⟩
  · intro h
    simp [mainRun, h]
  · intro h1 h2
    simp [mainRun, h1, h2]
  · intro h1 h2
    simp [mainRun, h1, h2]

/-- C6 witness: an empty credential and an all-blank keyword input each abort
with their configuration error and no requests; a non-empty configuration
proceeds. -/
theorem claim6_witness :
    mainRun (fun _ => NetOutcome.raised "offline") "" "kw" "tpl" 10 =
      (.configError "Please enter your OpenAI API Key.", []) ∧
    mainRun (fun _ => NetOutcome.raised "offline") "sk" " \n " "tpl" 10 =
      (.configError "Please enter at least one keyword.", []) ∧
    mainRun (fun _ => NetOutcome.raised "offline") "sk" "kw" "tpl" 10 =
      (.completed (run_gpt (fun _ => NetOutcome.raised "offline")
          (parseKeywords "kw") "tpl" 10 "sk").1,
       (run_gpt (fun _ => NetOutcome.raised "offline")
          (parseKeywords "kw") "tpl" 10 "sk").2) :=
  ⟨(claim6_validation _ _ _ _ _).1 rfl,
   (claim6_validation _ _ _ _ _).2.1 (by decide) (by decide),
   (claim6_validation _ _ _ _ _).2.2 (by decide) (by decide)⟩

/-- C7: keyword preprocessing maps the raw multi-line input (its lines joined
by newlines) to the list of its lines with each line stripped and blank lines
removed, preserving order and duplicates. -/
theorem claim7_keyword_preprocessing (keywords_input : String) (ls : List String)
    (hin : keywords_input.data = joinSep ['\n'] (ls.map String.data))
    (h : ∀ l ∈ ls, ∀ c ∈ l.data, isLineBreak c = false) :
    parseKeywords keywords_input =
      (ls.map pyStrip).filter (fun k => k != "") := by
  have hnocr : '\r' ∉ keywords_input.data := by
    rw [hin]
    intro hc
    rcases mem_joinSep ['\n'] (ls.map String.data) '\r' hc with h1 | ⟨p, hp, hcp⟩
    · simp at h1
    · obtain ⟨s, hs, hsd⟩ := List.mem_map.mp hp
      have hbr := h s hs '\r' (by rw [hsd]; exact hcp)
      simp [isLineBreak] at hbr
  have hsplit : splitlinesList keywords_input.data =
      splitBreaks (joinSep ['\n'] (ls.map String.data)) := by
    unfold splitlinesList
    rw [normalizeCrLf_eq_self _ hnocr, hin]
  have hlines : ∀ d ∈ ls.map String.data, ∀ c ∈ d, isLineBreak c = false := by
    intro d hd c hc
    obtain ⟨s, hs, hsd⟩ := List.mem_map.mp hd
    exact h s hs c (by rw [hsd]; exact hc)
  unfold parseKeywords splitlines
  rw [hsplit]
  rcases splitBreaks_joinSep (ls.map String.data) hlines with h1 | ⟨ds', hds', h2⟩
  · rw [h1, map_mk_map_data, filter_map_comm]
  · rw [h2]
    have hls : ls = ds'.map (fun l => (⟨l⟩ : String)) ++ [""] := by
      have h3 := congrArg (List.map (fun l => (⟨l⟩ : String))) hds'
      rw [map_mk_map_data, List.map_append] at h3
      exact h3
    rw [hls, List.map_append, List.filter_append]
    have hempty : (([""] : List String).map pyStrip).filter
        (fun k => k != "") = [] := by decide
    rw [hempty, List.append_nil, filter_map_comm]

/-- C7 witness: the spec's scenario, lines "a", blank, spaces, "b" give the
keyword list of "a" and "b" (length 2). -/
theorem claim7_witness :
    ("a\n\n  \nb" : String).data =
      joinSep ['\n'] ((["a", "", "  ", "b"] : List String).map String.data) ∧
    parseKeywords "a\n\n  \nb" =
      ((["a", "", "  ", "b"] : List String).map pyStrip).filter
        (fun k => k != "") ∧
    parseKeywords "a\n\n  \nb" = ["a", "b"] :=
  ⟨by decide,
   claim7_keyword_preprocessing _ _ (by decide) (by decide),
   by decide⟩

/-- C8: for every rendered prompt, the dispatcher issues exactly the
documented request — the fixed chat-completions endpoint, JSON and
bearer-token headers, body with model gpt-4o, the fixed system instruction,
the rendered prompt as the user message and temperature 0.7 — and on HTTP
success with a parsed body it extracts the first choice's message content and
returns it paired with the original keyword. -/
theorem claim8_request_shape (net : Request → NetOutcome)
    (prompt_template api_key keyword : String) (st : Nat) (sd : String)
    (j content : Json)
    (hnet : net (mkRequest prompt_template api_key keyword) =
      .got st sd (.parsed j))
    (hst : st < 400) (hex : extractContent j = .ok content) :
    mkRequest prompt_template api_key keyword =
      { url := "https://api.openai.com/v1/chat/completions",
        headers := [("Content-Type", "application/json"),
                    ("Authorization", "Bearer " ++ api_key)],
        payload := { model := "gpt-4o",
                     messages := [{ role := "system",
                                    content := "You are an AI assistant trained to categorize keywords" },
                                  { role := "user",
                                    content := renderPrompt prompt_template keyword }],
                     temperature := 7 / 10 } } ∧
    process_text net keyword prompt_template api_key = (keyword, content) := by
  constructor
  · rfl
  · unfold process_text
    rw [hnet]
    simp only [handleOutcome]
    rw [if_neg (show ¬ 400 ≤ st from by omega)]
    simp only [hex]

/-- C8 witness: a successful response whose first choice's message content is
the category "SOC". -/
theorem claim8_witness :
    (200 : Nat) < 400 ∧
    extractContent (Json.obj [("choices",
      Json.arr [Json.obj [("message",
        Json.obj [("content", Json.str "SOC")])]])]) = .ok (Json.str "SOC") ∧
    process_text
      (fun _ => NetOutcome.got 200 "OK" (.parsed (Json.obj [("choices",
        Json.arr [Json.obj [("message",
          Json.obj [("content", Json.str "SOC")])]])])))
      "soar" "cat: \x7b\x7bcell_value\x7d\x7d" "sk" = ("soar", Json.str "SOC") :=
  ⟨by decide, rfl,
   (claim8_request_shape
      (fun _ => NetOutcome.got 200 "OK" (.parsed (Json.obj [("choices",
        Json.arr [Json.obj [("message",
          Json.obj [("content", Json.str "SOC")])]])])))
      "cat: \x7b\x7bcell_value\x7d\x7d" "sk" "soar" 200 "OK"
      (Json.obj [("choices", Json.arr [Json.obj [("message",
        Json.obj [("content", Json.str "SOC")])]])])
      (Json.str "SOC") rfl (by decide) rfl).2⟩

end KeywordApp
